import Mathlib

/-!
Verification of the fifa-ranking dashboard against its specification.

Shallow embedding of the repository's four source files:
* `src/routes/index.tsx` — the dashboard: `updateChart` (time-range filter,
  date axis, chart datasets, colors) and `fetchRankings` (concurrent fetch
  orchestration via `Promise.all`);
* `src/utils/download.ts` — `downloadCSV` / `downloadJSON` exporters;
* `src/routes/api/rankings.ts` — the server-side `GET` handler;
* `src/types.ts` — the record shapes.

Modelling conventions:
* A JavaScript `Date` value is embedded as an `Instant`: a civil UTC
  datetime `(year, month, day, msOfDay)`.  An unparseable `PubDate`
  string (JS "Invalid Date") is embedded as `none : Option Instant`.
  `Date.prototype.getTime` is `Instant.toMs`, computed with the standard
  civil-from-days day-number formula (`daysFromCivil`), which matches the
  proleptic-Gregorian arithmetic of ECMAScript UTC dates, including the
  `setFullYear` overflow of Feb 29 into Mar 1 in a non-leap year.
* Date-key strings are embedded structurally as `DateKey` values:
  `DateKey.iso y m d` stands for the string produced by
  `toISOString().split('T')[0]` ("YYYY-MM-DD") and `DateKey.locale m d y`
  for the one produced by `toLocaleDateString()` in the en-US / UTC
  environment ("M/D/YYYY"); `DateKey.render` produces the actual strings.
  Each rendering is injective on the canonical dates that occur, so
  `Set`-deduplication and string-equality comparison on the rendered
  strings coincide with equality of the structural keys.
* `toISOString()` throws a `RangeError` on an invalid date, so the export
  pipeline is embedded in the `Except String` monad.
* `Array.prototype.sort(cmp)` is a stable comparator-consistent sort;
  the embedding uses a stable insertion sort ordered by `cmp(a,b) ≤ 0`.
  When the comparator returns `NaN` (keys of invalid dates) ECMAScript
  treats the result as `0`; the embedding follows that reading by giving
  invalid keys parse value 0.
* `Math.floor(Math.random() * COLORS.length)` is embedded as an external
  draw `draws : Nat → Nat` (one draw per dataset index) supplied by the
  environment, since its value is not determined by the program input.
-/

/-! ## Civil (proleptic Gregorian, UTC) calendar arithmetic -/

def isLeap (y : Int) : Prop := y % 4 = 0 ∧ (y % 100 ≠ 0 ∨ y % 400 = 0)

instance (y : Int) : Decidable (isLeap y) := by unfold isLeap; infer_instance

def daysInMonth (y m : Int) : Int :=
  if m = 2 then (if isLeap y then 29 else 28)
  else if m = 4 ∨ m = 6 ∨ m = 9 ∨ m = 11 then 30 else 31

/-- `(y, m, d)` is a canonical calendar day. -/
def ValidDay (y m d : Int) : Prop :=
  1 ≤ m ∧ m ≤ 12 ∧ 1 ≤ d ∧ d ≤ daysInMonth y m

instance (y m d : Int) : Decidable (ValidDay y m d) := by
  unfold ValidDay; infer_instance

/-- Days contributed by all years up to and including year `y`,
counted from the March-based year start (Hinnant day-count core). -/
def yearDays (y : Int) : Int := 365 * y + y / 4 - y / 100 + y / 400

/-- Day of the March-based year for civil month `m`, day `d`. -/
def doyOf (m d : Int) : Int := (153 * ((m + 9) % 12) + 2) / 5 + d - 1

/-- Day number of civil date `(y, m, d)` relative to 1970-01-01 (UTC),
exactly the day count ECMAScript uses for UTC `Date` values. -/
def daysFromCivil (y m d : Int) : Int :=
  yearDays (if m ≤ 2 then y - 1 else y) + doyOf m d - 719468

def msPerDay : Int := 86400000

/-- A valid JavaScript `Date` value, as a civil UTC datetime. -/
structure Instant where
  year : Int
  month : Int
  day : Int
  msOfDay : Int
deriving DecidableEq, Repr

/-- `Date.prototype.getTime()`: milliseconds since the epoch. -/
def Instant.toMs (i : Instant) : Int :=
  daysFromCivil i.year i.month i.day * msPerDay + i.msOfDay

/-- `Date.prototype.setFullYear(y)`: replace the year, keeping month, day
and time of day (Feb 29 overflows into Mar 1 via the day-number formula,
as in ECMAScript). -/
def Instant.setFullYear (i : Instant) (y : Int) : Instant :=
  { i with year := y }

def Instant.Valid (i : Instant) : Prop :=
  ValidDay i.year i.month i.day ∧ 0 ≤ i.msOfDay ∧ i.msOfDay < msPerDay

instance (i : Instant) : Decidable i.Valid := by
  unfold Instant.Valid; infer_instance

/-! ## Record model (src/types.ts) -/

structure TeamNameEntry where
  Description : String
deriving DecidableEq, Repr

/-- One dated ranking observation (interface `RankingHistoryItem`).
`PubDate` is the parse result of the source's timestamp string:
`none` models an unparseable string (JS "Invalid Date").
The numeric type of `TotalPoints` is irrelevant to every verified claim
(points are only copied and rendered, never computed with), so it is
embedded as `Int`. -/
structure RankingHistoryItem where
  IdCountry : String
  TeamName : List TeamNameEntry
  Rank : Int
  TotalPoints : Int
  PubDate : Option Instant
deriving DecidableEq, Repr

/-- `historyData`: map from country code to that country's records,
as an insertion-ordered list of entries (JS object keys are unique and
iterate in insertion order). -/
abbrev HistoryMap : Type := List (String × List RankingHistoryItem)

/-! ## Date keys (the two normalizers used by the source) -/

/-- A date-key string, represented structurally.
`iso y m d` is the string `toISOString().split('T')[0]` = "YYYY-MM-DD";
`locale m d y` is `toLocaleDateString()` in en-US/UTC = "M/D/YYYY";
`invalid` is the string "Invalid Date". -/
inductive DateKey where
  | iso (y m d : Int)
  | locale (m d y : Int)
  | invalid
deriving DecidableEq, Repr

def pad2 (n : Int) : String := if n < 10 then "0" ++ toString n else toString n

def pad4 (n : Int) : String :=
  if n < 10 then "000" ++ toString n
  else if n < 100 then "00" ++ toString n
  else if n < 1000 then "0" ++ toString n
  else toString n

/-- The actual string a `DateKey` stands for. -/
def DateKey.render : DateKey → String
  | .iso y m d => pad4 y ++ "-" ++ pad2 m ++ "-" ++ pad2 d
  | .locale m d y => toString m ++ "/" ++ toString d ++ "/" ++ toString y
  | .invalid => "Invalid Date"

/-- `new Date(keyString).getTime()`, used by both sort comparators: a
rendered day string parses back to UTC midnight of that day.  For the
"Invalid Date" string the comparator result is `NaN`, which ECMAScript
sorting treats as `0`; the embedding gives it parse value 0. -/
def DateKey.parseMs : DateKey → Int
  | .iso y m d => daysFromCivil y m d * msPerDay
  | .locale m d y => daysFromCivil y m d * msPerDay
  | .invalid => 0

/-- The calendar day denoted by a key (0 for the invalid key). -/
def DateKey.dayNum : DateKey → Int
  | .iso y m d => daysFromCivil y m d
  | .locale m d y => daysFromCivil y m d
  | .invalid => 0

def DateKey.ValidKey : DateKey → Prop
  | .iso y m d => ValidDay y m d
  | .locale m d y => ValidDay y m d
  | .invalid => False

instance (k : DateKey) : Decidable k.ValidKey := by
  cases k <;> (unfold DateKey.ValidKey; infer_instance)

/-- The chart's date-key normalizer (index.tsx lines 122 and 130):
`new Date(item.PubDate).toLocaleDateString()`. -/
def chartDateKey (pd : Option Instant) : DateKey :=
  match pd with
  | none => .invalid
  | some i => .locale i.month i.day i.year

/-- The export's date-key normalizer (download.ts lines 22, 41, 72, 82):
`new Date(item.PubDate).toISOString().split('T')[0]`; throws a
`RangeError` on an invalid date. -/
def exportDateKey (pd : Option Instant) : Except String DateKey :=
  match pd with
  | none => .error "RangeError: Invalid time value"
  | some i => .ok (.iso i.year i.month i.day)

/-! ## JS collection primitives -/

/-- `Set.prototype.add`: appends iff not already present
(JS sets iterate in insertion order). -/
def jsSetAdd {α : Type} [DecidableEq α] (s : List α) (a : α) : List α :=
  if a ∈ s then s else s ++ [a]

/-- A `new Set()` filled by iterating `l` (insertion-ordered dedup). -/
def jsSetOfList {α : Type} [DecidableEq α] (l : List α) : List α :=
  l.foldl jsSetAdd []

/-- `new Map(entries).get(k)`: the last entry with key `k` wins. -/
def jsMapGet {α β : Type} [DecidableEq α] (entries : List (α × β)) (k : α) :
    Option β :=
  (entries.reverse.find? (fun e => decide (e.1 = k))).map Prod.snd

/-! ## Time-range filter (index.tsx lines 96-116) -/

/-- The UI's time-range state: "all", "1y".."6y" (`years n` after
`parseInt(timeRange.replace("y",""))`), or "custom". -/
inductive TimeRange where
  | all
  | years (n : Int)
  | custom (startYear endYear : Int)
deriving DecidableEq, Repr

/-- The filter body of `updateChart` for one record.  For an unparseable
timestamp every `Date` comparison involving `NaN` is false, so the
record is dropped except under "all" (which returns `true` without
inspecting the date). -/
def keepItem (tr : TimeRange) (now : Instant) (item : RankingHistoryItem) :
    Bool :=
  match item.PubDate with
  | none =>
    match tr with
    | .all => true
    | _ => false
  | some itemDate =>
    match tr with
    | .custom s e => decide (s ≤ itemDate.year ∧ itemDate.year ≤ e)
    | .years n => decide ((now.setFullYear (now.year - n)).toMs ≤ itemDate.toMs)
    | .all => true

/-- `filteredHistoryData` (index.tsx lines 97-116). -/
def filteredHistoryData (tr : TimeRange) (now : Instant) (hm : HistoryMap) :
    HistoryMap :=
  hm.map (fun p => (p.1, p.2.filter (keepItem tr now)))

/-! ## Chart data construction (index.tsx lines 118-147) -/

/-- `allDates` (index.tsx lines 119-124): the set of locale date keys of
every record of every entity, in insertion order. -/
def chartAllDates (hm : HistoryMap) : List DateKey :=
  jsSetOfList (((hm.map Prod.snd).flatten).map (fun item => chartDateKey item.PubDate))

/-- The chart label comparator `(a, b) => new Date(a).getTime() - new Date(b).getTime()`:
`a` may precede `b` iff the comparator value is ≤ 0. -/
def ChartKeyLe (a b : DateKey) : Prop := a.parseMs ≤ b.parseMs

instance : DecidableRel ChartKeyLe := fun a b => by unfold ChartKeyLe; infer_instance

/-- `labels` (index.tsx line 125): the deduplicated keys of the filtered
histories, sorted ascending by parsed time. -/
def chartLabels (tr : TimeRange) (now : Instant) (hm : HistoryMap) :
    List DateKey :=
  List.insertionSort ChartKeyLe (chartAllDates (filteredHistoryData tr now hm))

/-- `rankMap` (index.tsx line 130): `new Map(history.map(h => [key h, h.Rank]))`. -/
def rankMapOf (history : List RankingHistoryItem) : List (DateKey × Int) :=
  history.map (fun h => (chartDateKey h.PubDate, h.Rank))

/-- One chart series value (index.tsx line 132):
`rankMap.get(date) || null`, so a missing date — or a rank of `0`,
which is falsy — yields the gap marker `null` (`none`). -/
def chartDataPoint (history : List RankingHistoryItem) (date : DateKey) :
    Option Int :=
  match jsMapGet (rankMapOf history) date with
  | none => none
  | some r => if r = 0 then none else some r

/-- The fixed 30-entry palette (index.tsx lines 20-51). -/
def COLORS : List String :=
  ["#3b82f6", "#ef4444", "#10b981", "#f59e0b", "#8b5cf6", "#ec4899",
   "#06b6d4", "#f97316", "#6366f1", "#84cc16", "#14b8a6", "#d946ef",
   "#e11d48", "#22c55e", "#0ea5e9", "#a855f7", "#f43f5e", "#64748b",
   "#a3e635", "#2dd4bf", "#fbbf24", "#c084fc", "#f472b6", "#38bdf8",
   "#818cf8", "#fb7185", "#34d399", "#a78bfa", "#e879f9", "#22d3ee"]

/-- Color assignment (index.tsx lines 134-136): the palette entry at the
selection index while it fits, otherwise the entry at an external
random draw `draw = Math.floor(Math.random() * COLORS.length)`. -/
def chartColor (index : Nat) (draw : Nat) : String :=
  if index < COLORS.length then COLORS.getD index ""
  else COLORS.getD draw ""

/-- Series label (index.tsx line 139):
`${history[0]?.TeamName[0]?.Description || code} (${code})`
(the empty string is falsy, hence the fallback to `code`). -/
def datasetLabel (history : List RankingHistoryItem) (code : String) : String :=
  (match history.head? with
   | some h =>
     match h.TeamName.head? with
     | some t => if t.Description = "" then code else t.Description
     | none => code
   | none => code) ++ " (" ++ code ++ ")"

structure ChartDataset where
  label : String
  data : List (Option Int)
  borderColor : String
  backgroundColor : String
deriving DecidableEq, Repr

/-- `updateChart` (index.tsx lines 86-202), restricted to the data it
computes: `none` when there are no entities (early return), otherwise
the labels and per-entity datasets handed to the chart collaborator.
`draws` supplies the random palette draw used for dataset `index` when
the palette is exhausted. -/
def updateChart (tr : TimeRange) (now : Instant) (hm : HistoryMap)
    (draws : Nat → Nat) : Option (List DateKey × List ChartDataset) :=
  if hm.isEmpty then none
  else
    let fh := filteredHistoryData tr now hm
    let labels := chartLabels tr now hm
    let datasets := fh.mapIdx (fun index p =>
      { label := datasetLabel p.2 p.1
        data := labels.map (fun date => chartDataPoint p.2 date)
        borderColor := chartColor index (draws index)
        backgroundColor := chartColor index (draws index) : ChartDataset })
    some (labels, datasets)

/-! ## Tabular export (src/utils/download.ts) -/

/-- Sequential effectful map in the `Except` monad (the iteration order
of the source's loops over histories and dates): stops at the first
thrown error. -/
def mapE {α β : Type} (f : α → Except String β) : List α → Except String (List β)
  | [] => .ok []
  | a :: t => do
    let b ← f a
    let bs ← mapE f t
    pure (b :: bs)

/-- `allDates` for the exports (download.ts lines 19-24 and 69-74):
the ISO day key of every record; computing a key of an unparseable
timestamp throws, which aborts the whole export. -/
def exportAllDates (hm : HistoryMap) : Except String (List DateKey) :=
  (mapE (fun item => exportDateKey item.PubDate) ((hm.map Prod.snd).flatten)).map
    jsSetOfList

/-- The export comparator `(a, b) => new Date(b).getTime() - new Date(a).getTime()`:
`a` may precede `b` iff the comparator value is ≤ 0. -/
def ExportKeyLe (a b : DateKey) : Prop := b.parseMs ≤ a.parseMs

instance : DecidableRel ExportKeyLe := fun a b => by unfold ExportKeyLe; infer_instance

/-- `sortedDates` (download.ts lines 25 and 75): descending by parsed time. -/
def sortedDates (hm : HistoryMap) : Except String (List DateKey) :=
  (exportAllDates hm).map (fun l => List.insertionSort ExportKeyLe l)

/-- `history.find(h => isoKey h === date)` (download.ts lines 41 and 82);
the key computation inside the callback can itself throw. -/
def findItem : List RankingHistoryItem → DateKey →
    Except String (Option RankingHistoryItem)
  | [], _ => .ok none
  | h :: t, date => do
    let k ← exportDateKey h.PubDate
    if k = date then pure (some h) else findItem t date

/-- One entity's two CSV cells in the row for `date`
(download.ts lines 43-47): rank and points, or two empty fields. -/
def csvCellsFor (history : List RankingHistoryItem) (date : DateKey) :
    Except String (List String) := do
  let item ← findItem history date
  match item with
  | some it => pure [toString it.Rank, toString it.TotalPoints]
  | none => pure ["", ""]

/-- One CSV data row (download.ts lines 36-49), as its list of cells. -/
def csvRow (hm : HistoryMap) (date : DateKey) : Except String (List String) := do
  let cellss ← mapE (fun p => csvCellsFor p.2 date) hm
  pure (date.render :: cellss.flatten)

/-- The CSV header row (download.ts lines 29-33). -/
def csvHeader (hm : HistoryMap) : List String :=
  "Date" :: (hm.map (fun p => [p.1 ++ " Rank", p.1 ++ " Points"])).flatten

/-- `downloadCSV` (download.ts lines 14-62), as the table it serializes:
`ok none` for the silent no-selection no-op, `error` when a key
computation throws. -/
def downloadCSV (hm : HistoryMap) :
    Except String (Option (List (List String))) :=
  if hm.isEmpty then .ok none
  else do
    let ds ← sortedDates hm
    let rows ← mapE (csvRow hm) ds
    pure (some (csvHeader hm :: rows))

/-- The `csvContent` string the source assembles from the table. -/
def csvText (table : List (List String)) : String :=
  String.intercalate "" (table.map (fun row => String.intercalate "," row ++ "\n"))

/-- interface `CountryRankingData` (download.ts lines 3-7);
`countryName` is `TeamName[0]?.Description`, possibly `undefined`. -/
structure CountryRankingData where
  rank : Int
  points : Int
  countryName : Option String
deriving DecidableEq, Repr

/-- interface `TimeSeriesEntry` (download.ts lines 9-12): the `date`
field plus one field per entity that has a record on that date. -/
structure TimeSeriesEntry where
  date : DateKey
  fields : List (String × CountryRankingData)
deriving DecidableEq, Repr

/-- One entity's contribution to a JSON entry (download.ts lines 80-90):
a binding iff the entity has a record on that date. -/
def jsonBindingFor (code : String) (history : List RankingHistoryItem)
    (date : DateKey) : Except String (Option (String × CountryRankingData)) := do
  let item ← findItem history date
  pure (item.map (fun it =>
    (code, ⟨it.Rank, it.TotalPoints, (it.TeamName.head?).map (fun t => t.Description)⟩)))

/-- One `TimeSeriesEntry` (download.ts lines 78-92). -/
def jsonEntry (hm : HistoryMap) (date : DateKey) :
    Except String TimeSeriesEntry := do
  let bs ← mapE (fun p => jsonBindingFor p.1 p.2 date) hm
  pure ⟨date, bs.filterMap id⟩

/-- `downloadJSON` (download.ts lines 64-104), as the document it
serializes. -/
def downloadJSON (hm : HistoryMap) :
    Except String (Option (List TimeSeriesEntry)) :=
  if hm.isEmpty then .ok none
  else do
    let ds ← sortedDates hm
    let entries ← mapE (jsonEntry hm) ds
    pure (some entries)

/-! ## API route (src/routes/api/rankings.ts) -/

structure ApiQuery where
  countryCode : Option String
  gender : Option String
  footballType : Option String

/-- The upstream FIFA fetch, abstracted: it either throws (network error,
or a body that fails to parse) or yields a response with an `ok` flag
and, when `ok`, the parsed JSON payload. -/
inductive UpstreamOutcome where
  | throws
  | response (ok : Bool) (body : String)

inductive ApiBody where
  | errorMsg (msg : String)
  | payload (body : String)
deriving DecidableEq, Repr

structure ApiResponse where
  status : Int
  body : ApiBody
deriving DecidableEq, Repr

/-- `searchParams.get(x) || dflt`: `null` and the empty string are falsy. -/
def orDefault (v : Option String) (dflt : String) : String :=
  match v with
  | none => dflt
  | some s => if s = "" then dflt else s

/-- The `GET` handler (rankings.ts lines 4-34).  `upstream` receives
gender, country code and football type, exactly the parameters
interpolated into the FIFA URL. -/
def GET (q : ApiQuery) (upstream : String → String → String → UpstreamOutcome) :
    ApiResponse :=
  let gender := orDefault q.gender "1"
  let footballType := orDefault q.footballType "football"
  match q.countryCode with
  | none => ⟨400, .errorMsg "Country code is required"⟩
  | some cc =>
    if cc = "" then ⟨400, .errorMsg "Country code is required"⟩
    else
      match upstream gender cc footballType with
      | .throws => ⟨500, .errorMsg "Failed to fetch data"⟩
      | .response ok body =>
        if ok then ⟨200, .payload body⟩
        else ⟨500, .errorMsg "Failed to fetch data"⟩

/-! ## Fetch orchestration (index.tsx lines 204-266) -/

/-- The outcome of `fetch` + `res.json()` for one country:
the promise rejects, or resolves to a payload whose `rankings` field is
the given list (`none` when the field is absent or not an array). -/
inductive FetchOutcome where
  | rejected
  | resolved (rankings : Option (List RankingHistoryItem))

structure RankingResult where
  countryCode : String
  countryName : String
  rank : Int
  previousRank : Int
  points : Int
  date : Option Instant
  gender : String
deriving DecidableEq, Repr

structure FetchedItem where
  result : RankingResult
  history : List RankingHistoryItem
  code : String
deriving DecidableEq, Repr

/-- `new Date(PubDate).getTime()` for the descending sort: `NaN` for an
unparseable date, which the embedding (like the sort comparator) treats
as 0. -/
def pubMs (item : RankingHistoryItem) : Int :=
  match item.PubDate with
  | some i => i.toMs
  | none => 0

/-- The comparator `(a, b) => new Date(b.PubDate).getTime() - new Date(a.PubDate).getTime()`. -/
def PubDateDesc (a b : RankingHistoryItem) : Prop := pubMs b ≤ pubMs a

instance : DecidableRel PubDateDesc := fun a b => by unfold PubDateDesc; infer_instance

/-- `rankings.sort((a, b) => pubMs b - pubMs a)` (index.tsx line 223). -/
def sortByDateDesc (l : List RankingHistoryItem) : List RankingHistoryItem :=
  List.insertionSort PubDateDesc l

/-- The per-country body of the `Promise.all` callback
(index.tsx lines 218-242), given the resolved payload. -/
def processCountry (gender : String) (code : String)
    (rankings : Option (List RankingHistoryItem)) : Option FetchedItem :=
  match rankings with
  | none => none
  | some rankings =>
    if rankings.isEmpty then none
    else
      match sortByDateDesc rankings with
      | [] => none
      | current :: rest =>
        let previous := rest.headD current
        some
          { result :=
              { countryCode := code
                countryName :=
                  match current.TeamName.head? with
                  | some t => if t.Description = "" then code else t.Description
                  | none => code
                rank := current.Rank
                previousRank := previous.Rank
                points := current.TotalPoints
                date := current.PubDate
                gender := if gender = "1" then "Men" else "Women" }
            history := current :: rest
            code := code }

/-- `fetchRankings` (index.tsx lines 204-266).  `results` and
`historyData` are cleared at the start; if any of the jointly awaited
promises rejects, `Promise.all` rejects, the `catch` only logs, and both
outputs stay empty. -/
def fetchRankings (codes : List String) (gender : String)
    (provider : String → FetchOutcome) : List RankingResult × HistoryMap :=
  if codes.isEmpty then ([], [])
  else if codes.any (fun c =>
      match provider c with
      | .rejected => true
      | .resolved _ => false) then
    ([], [])
  else
    let fetched := codes.filterMap (fun c =>
      match provider c with
      | .rejected => none
      | .resolved rankings => processCountry gender c rankings)
    (fetched.map (fun f => f.result), fetched.map (fun f => (f.code, f.history)))

/-! ## Calendar facts: the day-number formula is strictly monotone on
canonical civil dates -/

theorem yearDays_step (y : Int) :
    365 ≤ yearDays y - yearDays (y - 1) ∧ yearDays y - yearDays (y - 1) ≤ 366 := by
  unfold yearDays; omega

theorem yearDays_mono {y y' : Int} (h : y ≤ y') : yearDays y ≤ yearDays y' := by
  refine Int.le_induction (P := fun n => yearDays y ≤ yearDays n) ?_ ?_ y' h
  · exact le_refl _
  · intro n _ ih
    have h2 := yearDays_step (n + 1)
    have e : (n + 1 : Int) - 1 = n := by ring
    rw [e] at h2
    omega

theorem dfc_lt_same_year {y m1 d1 m2 d2 : Int}
    (h1 : ValidDay y m1 d1) (h2 : ValidDay y m2 d2)
    (hlt : m1 < m2 ∨ (m1 = m2 ∧ d1 < d2)) :
    daysFromCivil y m1 d1 < daysFromCivil y m2 d2 := by
  unfold ValidDay daysInMonth isLeap at h1 h2
  unfold daysFromCivil yearDays doyOf
  split_ifs at h1 h2 ⊢ <;> omega

theorem dfc_year_lb {y m d : Int} (h : ValidDay y m d) :
    daysFromCivil y 1 1 ≤ daysFromCivil y m d := by
  unfold ValidDay daysInMonth isLeap at h
  have hs := yearDays_step y
  unfold daysFromCivil doyOf
  split_ifs at h ⊢ <;> omega

theorem dfc_year_ub {y m d : Int} (h : ValidDay y m d) :
    daysFromCivil y m d < daysFromCivil (y + 1) 1 1 := by
  unfold ValidDay daysInMonth isLeap at h
  have hs := yearDays_step y
  unfold daysFromCivil doyOf
  have e : (y + 1 : Int) - 1 = y := by ring
  rw [e]
  split_ifs at h ⊢ <;> omega

theorem dfc_jan1_mono {y y' : Int} (h : y ≤ y') :
    daysFromCivil y 1 1 ≤ daysFromCivil y' 1 1 := by
  have := yearDays_mono (show y - 1 ≤ y' - 1 by omega)
  unfold daysFromCivil doyOf
  split_ifs <;> omega

theorem daysFromCivil_lt {y1 m1 d1 y2 m2 d2 : Int}
    (h1 : ValidDay y1 m1 d1) (h2 : ValidDay y2 m2 d2)
    (hlt : y1 < y2 ∨ (y1 = y2 ∧ (m1 < m2 ∨ (m1 = m2 ∧ d1 < d2)))) :
    daysFromCivil y1 m1 d1 < daysFromCivil y2 m2 d2 := by
  rcases hlt with hy | ⟨rfl, hmd⟩
  · calc daysFromCivil y1 m1 d1 < daysFromCivil (y1 + 1) 1 1 := dfc_year_ub h1
      _ ≤ daysFromCivil y2 1 1 := dfc_jan1_mono (by omega)
      _ ≤ daysFromCivil y2 m2 d2 := dfc_year_lb h2
  · exact dfc_lt_same_year h1 h2 hmd

theorem daysFromCivil_inj {y1 m1 d1 y2 m2 d2 : Int}
    (h1 : ValidDay y1 m1 d1) (h2 : ValidDay y2 m2 d2)
    (heq : daysFromCivil y1 m1 d1 = daysFromCivil y2 m2 d2) :
    y1 = y2 ∧ m1 = m2 ∧ d1 = d2 := by
  by_contra hne
  have hcases : (y1 < y2 ∨ (y1 = y2 ∧ (m1 < m2 ∨ (m1 = m2 ∧ d1 < d2)))) ∨
      (y2 < y1 ∨ (y2 = y1 ∧ (m2 < m1 ∨ (m2 = m1 ∧ d2 < d1)))) := by
    omega
  rcases hcases with h | h
  · exact absurd heq (ne_of_lt (daysFromCivil_lt h1 h2 h))
  · exact absurd heq.symm (ne_of_lt (daysFromCivil_lt h2 h1 h))

/-! ## Facts about the JS collection primitives -/

theorem jsSetAdd_nodup {α : Type} [DecidableEq α] {s : List α} (h : s.Nodup)
    (a : α) : (jsSetAdd s a).Nodup := by
  unfold jsSetAdd
  split_ifs with hmem
  · exact h
  · simp [List.nodup_append, h, hmem]

theorem jsSetAdd_mem {α : Type} [DecidableEq α] (s : List α) (a b : α) :
    b ∈ jsSetAdd s a ↔ b ∈ s ∨ b = a := by
  unfold jsSetAdd
  split_ifs with hmem
  · constructor
    · exact Or.inl
    · rintro (h | rfl)
      · exact h
      · exact hmem
  · simp

theorem jsSetOfList_core {α : Type} [DecidableEq α] :
    ∀ (l s : List α), s.Nodup →
      (l.foldl jsSetAdd s).Nodup ∧ ∀ a, (a ∈ l.foldl jsSetAdd s ↔ a ∈ s ∨ a ∈ l) := by
  intro l
  induction l with
  | nil => intro s hs; constructor
           · simpa using hs
           · intro a; simp
  | cons x t ih =>
    intro s hs
    have hadd : (jsSetAdd s x).Nodup := jsSetAdd_nodup hs x
    have h := ih (jsSetAdd s x) hadd
    refine ⟨h.1, fun a => ?_⟩
    rw [List.foldl_cons, h.2 a, jsSetAdd_mem]
    simp only [List.mem_cons]
    tauto

theorem jsSetOfList_nodup {α : Type} [DecidableEq α] (l : List α) :
    (jsSetOfList l).Nodup :=
  (jsSetOfList_core l [] (by simp)).1

theorem jsSetOfList_mem {α : Type} [DecidableEq α] (l : List α) (a : α) :
    a ∈ jsSetOfList l ↔ a ∈ l := by
  have h := (jsSetOfList_core l [] (by simp)).2 a
  simpa [jsSetOfList] using h

theorem jsSetOfList_length {α : Type} [DecidableEq α] (l : List α) :
    (jsSetOfList l).length = l.toFinset.card := by
  have hnd := jsSetOfList_nodup l
  have hts : (jsSetOfList l).toFinset = l.toFinset := by
    ext a
    simp [List.mem_toFinset, jsSetOfList_mem]
  rw [← List.toFinset_card_of_nodup hnd, hts]

/-! ## Facts about `mapE` -/

theorem exceptBind_ok {ε α β : Type} (a : α) (g : α → Except ε β) :
    (Except.ok a >>= g) = g a := rfl

theorem mapE_ok_mem_iff {α β : Type} (f : α → Except String β) :
    ∀ (l : List α) (bs : List β), mapE f l = Except.ok bs →
      ∀ b, (b ∈ bs ↔ ∃ a ∈ l, f a = Except.ok b) := by
  intro l
  induction l with
  | nil =>
    intro bs h b
    have h2 : Except.ok ([] : List β) = Except.ok bs := h
    cases h2
    simp
  | cons x t ih =>
    intro bs h b
    unfold mapE at h
    cases hx : f x with
    | error e =>
      rw [hx] at h
      exact Except.noConfusion h
    | ok b0 =>
      rw [hx] at h
      cases ht : mapE f t with
      | error e =>
        rw [ht] at h
        exact Except.noConfusion h
      | ok bs0 =>
        rw [ht] at h
        have h2 : Except.ok (b0 :: bs0) = Except.ok bs := h
        cases h2
        simp only [List.mem_cons]
        constructor
        · rintro (rfl | hb)
          · exact ⟨x, Or.inl rfl, hx⟩
          · obtain ⟨a, ha, hfa⟩ := (ih bs0 ht b).mp hb
            exact ⟨a, Or.inr ha, hfa⟩
        · rintro ⟨a, (rfl | ha), hfa⟩
          · left
            have h3 : Except.ok (ε := String) b0 = Except.ok b := hx ▸ hfa
            exact (Except.ok.inj h3).symm
          · right
            exact (ih bs0 ht b).mpr ⟨a, ha, hfa⟩

theorem mapE_ok_of_forall {α β : Type} (f : α → Except String β) :
    ∀ (l : List α), (∀ a ∈ l, ∃ b, f a = Except.ok b) →
      ∃ bs, mapE f l = Except.ok bs := by
  intro l
  induction l with
  | nil => intro _; exact ⟨[], rfl⟩
  | cons x t ih =>
    intro h
    obtain ⟨b0, hb0⟩ := h x (by simp)
    obtain ⟨bs0, hbs0⟩ := ih (fun a ha => h a (by simp [ha]))
    refine ⟨b0 :: bs0, ?_⟩
    unfold mapE
    rw [hb0, hbs0]
    rfl

/-! ## Facts about date keys and the sorted axes -/

theorem parseMs_eq_dayNum (k : DateKey) : k.parseMs = k.dayNum * msPerDay := by
  cases k <;> simp [DateKey.parseMs, DateKey.dayNum]

theorem ChartKeyLe_iff (a b : DateKey) :
    ChartKeyLe a b ↔ a.dayNum ≤ b.dayNum := by
  simp only [ChartKeyLe, parseMs_eq_dayNum, msPerDay]
  omega

theorem ExportKeyLe_iff (a b : DateKey) :
    ExportKeyLe a b ↔ b.dayNum ≤ a.dayNum := by
  simp only [ExportKeyLe, parseMs_eq_dayNum, msPerDay]
  omega

instance : IsTrans DateKey ChartKeyLe :=
  ⟨fun _ _ _ h1 h2 => le_trans h1 h2⟩

instance : IsTotal DateKey ChartKeyLe :=
  ⟨fun a b => le_total a.parseMs b.parseMs⟩

instance : IsTrans DateKey ExportKeyLe :=
  ⟨fun _ _ _ h1 h2 => le_trans h2 h1⟩

instance : IsTotal DateKey ExportKeyLe :=
  ⟨fun a b => le_total b.parseMs a.parseMs⟩

/-- Two distinct valid keys of the same shape never denote the same day. -/
theorem dayNum_inj_of_validKey {a b : DateKey} (ha : a.ValidKey) (hb : b.ValidKey)
    (hshape : (∃ m d y, a = DateKey.locale m d y) ∧ (∃ m d y, b = DateKey.locale m d y) ∨
              (∃ y m d, a = DateKey.iso y m d) ∧ (∃ y m d, b = DateKey.iso y m d))
    (hday : a.dayNum = b.dayNum) : a = b := by
  rcases hshape with ⟨⟨m1, d1, y1, rfl⟩, ⟨m2, d2, y2, rfl⟩⟩ |
    ⟨⟨y1, m1, d1, rfl⟩, ⟨y2, m2, d2, rfl⟩⟩ <;>
    simp only [DateKey.ValidKey] at ha hb <;>
    simp only [DateKey.dayNum] at hday <;>
    obtain ⟨h1, h2, h3⟩ := daysFromCivil_inj ha hb hday <;>
    simp [h1, h2, h3]

/-- A nodup list of valid same-shape keys that is sorted non-strictly by
day is sorted strictly. -/
theorem pairwise_lt_of_pairwise_le {l : List DateKey}
    (hval : ∀ k ∈ l, k.ValidKey)
    (hshape : (∀ k ∈ l, ∃ m d y, k = DateKey.locale m d y) ∨
              (∀ k ∈ l, ∃ y m d, k = DateKey.iso y m d))
    (hsort : l.Pairwise (fun a b => a.dayNum ≤ b.dayNum))
    (hnd : l.Nodup) : l.Pairwise (fun a b => a.dayNum < b.dayNum) := by
  have hcomb := hsort.and hnd
  refine hcomb.imp_of_mem ?_
  intro a b ha hb hab
  rcases lt_or_eq_of_le hab.1 with h | h
  · exact h
  · exfalso
    apply hab.2
    apply dayNum_inj_of_validKey (hval a ha) (hval b hb) _ h
    rcases hshape with hs | hs
    · exact Or.inl ⟨hs a ha, hs b hb⟩
    · exact Or.inr ⟨hs a ha, hs b hb⟩

/-- Descending variant. -/
theorem pairwise_gt_of_pairwise_ge {l : List DateKey}
    (hval : ∀ k ∈ l, k.ValidKey)
    (hshape : (∀ k ∈ l, ∃ m d y, k = DateKey.locale m d y) ∨
              (∀ k ∈ l, ∃ y m d, k = DateKey.iso y m d))
    (hsort : l.Pairwise (fun a b => b.dayNum ≤ a.dayNum))
    (hnd : l.Nodup) : l.Pairwise (fun a b => b.dayNum < a.dayNum) := by
  have hcomb := hsort.and hnd
  refine hcomb.imp_of_mem ?_
  intro a b ha hb hab
  rcases lt_or_eq_of_le hab.1 with h | h
  · exact h
  · exfalso
    apply hab.2
    apply dayNum_inj_of_validKey (hval a ha) (hval b hb) _ h.symm
    rcases hshape with hs | hs
    · exact Or.inl ⟨hs a ha, hs b hb⟩
    · exact Or.inr ⟨hs a ha, hs b hb⟩

/-- Every key on the chart axis is the chart key of some record of the
(filtered) history map. -/
theorem mem_chartAllDates_iff (hm : HistoryMap) (k : DateKey) :
    k ∈ chartAllDates hm ↔
      ∃ p ∈ hm, ∃ item ∈ p.2, k = chartDateKey item.PubDate := by
  unfold chartAllDates
  rw [jsSetOfList_mem]
  simp only [List.mem_map, List.mem_flatten]
  constructor
  · rintro ⟨item, ⟨h, ⟨⟨p, hp, rfl⟩, hitem⟩⟩, rfl⟩
    exact ⟨p, hp, item, hitem, rfl⟩
  · rintro ⟨p, hp, item, hitem, rfl⟩
    exact ⟨item, ⟨p.2, ⟨p, hp, rfl⟩, hitem⟩, rfl⟩

/-- Membership on the export key set (before sorting), given that every
key computation succeeded. -/
theorem mem_exportAllDates_iff (hm : HistoryMap) (ks : List DateKey)
    (h : exportAllDates hm = Except.ok ks) (k : DateKey) :
    k ∈ ks ↔ ∃ p ∈ hm, ∃ item ∈ p.2, exportDateKey item.PubDate = Except.ok k := by
  unfold exportAllDates at h
  cases hmE : mapE (fun item => exportDateKey item.PubDate) ((hm.map Prod.snd).flatten) with
  | error e => rw [hmE] at h; exact Except.noConfusion h
  | ok ks0 =>
    rw [hmE] at h
    have h2 : Except.ok (jsSetOfList ks0) = Except.ok ks := h
    cases h2
    rw [jsSetOfList_mem]
    rw [mapE_ok_mem_iff _ _ _ hmE k]
    simp only [List.mem_flatten, List.mem_map]
    constructor
    · rintro ⟨item, ⟨h, ⟨p, hp, rfl⟩, hitem⟩, hk⟩
      exact ⟨p, hp, item, hitem, hk⟩
    · rintro ⟨p, hp, item, hitem, hk⟩
      exact ⟨item, ⟨p.2, ⟨p, hp, rfl⟩, hitem⟩, hk⟩

/-- All chart-axis keys of an all-valid history map are valid locale keys. -/
theorem chartAllDates_valid (hm : HistoryMap)
    (hvalid : ∀ p ∈ hm, ∀ item ∈ p.2, ∃ i, item.PubDate = some i ∧ i.Valid) :
    ∀ k ∈ chartAllDates hm, k.ValidKey ∧ ∃ m d y, k = DateKey.locale m d y := by
  intro k hk
  obtain ⟨p, hp, item, hitem, rfl⟩ := (mem_chartAllDates_iff hm k).mp hk
  obtain ⟨i, hi, hiv⟩ := hvalid p hp item hitem
  rw [hi]
  exact ⟨hiv.1, i.month, i.day, i.year, rfl⟩

/-- Validity of a history map survives the time-range filter. -/
theorem filteredHistoryData_valid (tr : TimeRange) (now : Instant) (hm : HistoryMap)
    (hvalid : ∀ p ∈ hm, ∀ item ∈ p.2, ∃ i, item.PubDate = some i ∧ i.Valid) :
    ∀ p ∈ filteredHistoryData tr now hm, ∀ item ∈ p.2,
      ∃ i, item.PubDate = some i ∧ i.Valid := by
  intro p hp item hitem
  unfold filteredHistoryData at hp
  obtain ⟨q, hq, rfl⟩ := List.mem_map.mp hp
  exact hvalid q hq item (List.mem_filter.mp hitem).1

/-- The chart labels of an all-valid history map are strictly increasing
by denoted calendar day. -/
theorem chartLabels_strict (tr : TimeRange) (now : Instant) (hm : HistoryMap)
    (hvalid : ∀ p ∈ hm, ∀ item ∈ p.2, ∃ i, item.PubDate = some i ∧ i.Valid) :
    (chartLabels tr now hm).Pairwise (fun a b => a.dayNum < b.dayNum) := by
  unfold chartLabels
  set s := chartAllDates (filteredHistoryData tr now hm) with hs
  have hkeys := chartAllDates_valid _ (filteredHistoryData_valid tr now hm hvalid)
  have hperm := List.perm_insertionSort ChartKeyLe s
  have hsorted := List.sorted_insertionSort ChartKeyLe s
  have hnd : (List.insertionSort ChartKeyLe s).Nodup :=
    hperm.symm.nodup (jsSetOfList_nodup _)
  apply pairwise_lt_of_pairwise_le
  · intro k hk
    exact (hkeys k ((List.mem_insertionSort ChartKeyLe).mp hk)).1
  · left
    intro k hk
    exact (hkeys k ((List.mem_insertionSort ChartKeyLe).mp hk)).2
  · exact hsorted.imp_of_mem (fun _ _ h => (ChartKeyLe_iff _ _).mp h)
  · exact hnd

/-- All export-axis keys of a successfully keyed history map are valid iso
keys, provided every record carries a valid instant. -/
theorem exportDates_valid (hm : HistoryMap) (ks : List DateKey)
    (h : exportAllDates hm = Except.ok ks)
    (hvalid : ∀ p ∈ hm, ∀ item ∈ p.2, ∃ i, item.PubDate = some i ∧ i.Valid) :
    ∀ k ∈ ks, k.ValidKey ∧ ∃ y m d, k = DateKey.iso y m d := by
  intro k hk
  obtain ⟨p, hp, item, hitem, hkey⟩ := (mem_exportAllDates_iff hm ks h k).mp hk
  obtain ⟨i, hi, hiv⟩ := hvalid p hp item hitem
  rw [hi] at hkey
  have h2 : Except.ok (DateKey.iso i.year i.month i.day) = Except.ok k := hkey
  cases h2
  exact ⟨hiv.1, i.year, i.month, i.day, rfl⟩

/-- The nodup property of the export key set. -/
theorem exportAllDates_nodup (hm : HistoryMap) (ks : List DateKey)
    (h : exportAllDates hm = Except.ok ks) : ks.Nodup := by
  unfold exportAllDates at h
  cases hmE : mapE (fun item => exportDateKey item.PubDate) ((hm.map Prod.snd).flatten) with
  | error e => rw [hmE] at h; exact Except.noConfusion h
  | ok ks0 =>
    rw [hmE] at h
    have h2 : Except.ok (jsSetOfList ks0) = Except.ok ks := h
    cases h2
    exact jsSetOfList_nodup ks0

/-- The export dates of an all-valid history map are strictly decreasing
by denoted calendar day. -/
theorem sortedDates_strict (hm : HistoryMap) (ds : List DateKey)
    (h : sortedDates hm = Except.ok ds)
    (hvalid : ∀ p ∈ hm, ∀ item ∈ p.2, ∃ i, item.PubDate = some i ∧ i.Valid) :
    ds.Pairwise (fun a b => b.dayNum < a.dayNum) := by
  unfold sortedDates at h
  cases hks : exportAllDates hm with
  | error e => rw [hks] at h; exact Except.noConfusion h
  | ok ks =>
    rw [hks] at h
    have h2 : Except.ok (List.insertionSort ExportKeyLe ks) = Except.ok ds := h
    cases h2
    have hkeys := exportDates_valid hm ks hks hvalid
    have hperm := List.perm_insertionSort ExportKeyLe ks
    have hsorted := List.sorted_insertionSort ExportKeyLe ks
    have hnd : (List.insertionSort ExportKeyLe ks).Nodup :=
      hperm.symm.nodup (exportAllDates_nodup hm ks hks)
    apply pairwise_gt_of_pairwise_ge
    · intro k hk
      exact (hkeys k ((List.mem_insertionSort ExportKeyLe).mp hk)).1
    · right
      intro k hk
      exact (hkeys k ((List.mem_insertionSort ExportKeyLe).mp hk)).2
    · exact hsorted.imp_of_mem (fun _ _ h => (ExportKeyLe_iff _ _).mp h)
    · exact hnd

/-! ## Axis length bounds (for the aligned-axis cardinality claim) -/

/-- The chart axis is exactly as long as the number of distinct chart keys. -/
theorem chartLabels_length (tr : TimeRange) (now : Instant) (hm : HistoryMap) :
    (chartLabels tr now hm).length =
      ((((filteredHistoryData tr now hm).map Prod.snd).flatten).map
        (fun item => chartDateKey item.PubDate)).toFinset.card := by
  unfold chartLabels chartAllDates
  rw [(List.perm_insertionSort ChartKeyLe _).length_eq, jsSetOfList_length]

/-- The chart axis is no longer than the total number of filtered records. -/
theorem chartLabels_length_le (tr : TimeRange) (now : Instant) (hm : HistoryMap) :
    (chartLabels tr now hm).length ≤
      ((filteredHistoryData tr now hm).map (fun p => p.2.length)).sum := by
  rw [chartLabels_length]
  calc ((((filteredHistoryData tr now hm).map Prod.snd).flatten).map
          (fun item => chartDateKey item.PubDate)).toFinset.card
      ≤ ((((filteredHistoryData tr now hm).map Prod.snd).flatten).map
          (fun item => chartDateKey item.PubDate)).length := List.toFinset_card_le _
    _ = (((filteredHistoryData tr now hm).map Prod.snd).flatten).length := by
        rw [List.length_map]
    _ = ((filteredHistoryData tr now hm).map (fun p => p.2.length)).sum := by
        rw [List.length_flatten, List.map_map]
        rfl

/-- Each entity's distinct chart keys all appear on the chart axis. -/
theorem chartLabels_length_ge (tr : TimeRange) (now : Instant) (hm : HistoryMap)
    (code : String) (h : List RankingHistoryItem)
    (hmem : (code, h) ∈ filteredHistoryData tr now hm) :
    (h.map (fun item => chartDateKey item.PubDate)).toFinset.card ≤
      (chartLabels tr now hm).length := by
  rw [chartLabels_length]
  apply Finset.card_le_card
  intro k hk
  rw [List.mem_toFinset] at hk ⊢
  obtain ⟨item, hitem, rfl⟩ := List.mem_map.mp hk
  apply List.mem_map.mpr
  refine ⟨item, ?_, rfl⟩
  apply List.mem_flatten.mpr
  exact ⟨h, List.mem_map.mpr ⟨(code, h), hmem, rfl⟩, hitem⟩

/-- `mapE` preserves length on success. -/
theorem mapE_ok_length {α β : Type} (f : α → Except String β) :
    ∀ (l : List α) (bs : List β), mapE f l = Except.ok bs → bs.length = l.length := by
  intro l
  induction l with
  | nil =>
    intro bs h
    have h2 : Except.ok ([] : List β) = Except.ok bs := h
    cases h2; rfl
  | cons x t ih =>
    intro bs h
    unfold mapE at h
    cases hx : f x with
    | error e => rw [hx] at h; exact Except.noConfusion h
    | ok b0 =>
      rw [hx] at h
      cases ht : mapE f t with
      | error e => rw [ht] at h; exact Except.noConfusion h
      | ok bs0 =>
        rw [ht] at h
        have h2 : Except.ok (b0 :: bs0) = Except.ok bs := h
        cases h2
        simp [ih bs0 ht]

/-- The export key of a parseable record, as a pure function (what
`exportDateKey` returns when it does not throw). -/
def exportDateKeyD (pd : Option Instant) : DateKey :=
  match pd with
  | none => DateKey.invalid
  | some i => DateKey.iso i.year i.month i.day

theorem exportDateKey_eq_ok (pd : Option Instant) (i : Instant) (h : pd = some i) :
    exportDateKey pd = Except.ok (exportDateKeyD pd) := by
  subst h; rfl

/-- The export axis is no longer than the total number of records. -/
theorem sortedDates_length_le (hm : HistoryMap) (ds : List DateKey)
    (h : sortedDates hm = Except.ok ds) :
    ds.length ≤ (hm.map (fun p => p.2.length)).sum := by
  unfold sortedDates exportAllDates at h
  cases hmE : mapE (fun item => exportDateKey item.PubDate) ((hm.map Prod.snd).flatten) with
  | error e => rw [hmE] at h; exact Except.noConfusion h
  | ok ks0 =>
    rw [hmE] at h
    have h2 : Except.ok (List.insertionSort ExportKeyLe (jsSetOfList ks0)) =
        Except.ok ds := h
    cases h2
    calc (List.insertionSort ExportKeyLe (jsSetOfList ks0)).length
        = (jsSetOfList ks0).length := (List.perm_insertionSort ExportKeyLe _).length_eq
      _ = ks0.toFinset.card := jsSetOfList_length ks0
      _ ≤ ks0.length := List.toFinset_card_le _
      _ = (((hm.map Prod.snd).flatten)).length := mapE_ok_length _ _ _ hmE
      _ = (hm.map (fun p => p.2.length)).sum := by
          rw [List.length_flatten, List.map_map]
          rfl

/-- Each entity's distinct export keys all appear among the export dates,
provided every record is parseable. -/
theorem sortedDates_length_ge (hm : HistoryMap) (ds : List DateKey)
    (h : sortedDates hm = Except.ok ds) (code : String)
    (hl : List RankingHistoryItem) (hmem : (code, hl) ∈ hm)
    (hparse : ∀ item ∈ hl, ∃ i, item.PubDate = some i) :
    (hl.map (fun item => exportDateKeyD item.PubDate)).toFinset.card ≤ ds.length := by
  unfold sortedDates exportAllDates at h
  cases hmE : mapE (fun item => exportDateKey item.PubDate) ((hm.map Prod.snd).flatten) with
  | error e => rw [hmE] at h; exact Except.noConfusion h
  | ok ks0 =>
    rw [hmE] at h
    have h2 : Except.ok (List.insertionSort ExportKeyLe (jsSetOfList ks0)) =
        Except.ok ds := h
    cases h2
    have hlen : (List.insertionSort ExportKeyLe (jsSetOfList ks0)).length =
        ks0.toFinset.card := by
      rw [(List.perm_insertionSort ExportKeyLe _).length_eq, jsSetOfList_length]
    rw [hlen]
    apply Finset.card_le_card
    intro k hk
    rw [List.mem_toFinset] at hk ⊢
    obtain ⟨item, hitem, rfl⟩ := List.mem_map.mp hk
    obtain ⟨i, hi⟩ := hparse item hitem
    apply (mapE_ok_mem_iff _ _ _ hmE _).mpr
    refine ⟨item, ?_, exportDateKey_eq_ok _ i hi⟩
    apply List.mem_flatten.mpr
    exact ⟨hl, List.mem_map.mpr ⟨(code, hl), hmem, rfl⟩, hitem⟩

/-! ## Lookup lemmas: export `find` vs chart `Map` on duplicated keys -/

/-- A history whose records all have parseable timestamps and keys other
than `date` yields no CSV/JSON item for `date`. -/
theorem findItem_eq_none (date : DateKey) :
    ∀ (hl : List RankingHistoryItem),
      (∀ item ∈ hl, ∃ i, item.PubDate = some i ∧ exportDateKeyD item.PubDate ≠ date) →
      findItem hl date = Except.ok none := by
  intro hl
  induction hl with
  | nil => intro _; rfl
  | cons x t ih =>
    intro h
    obtain ⟨i, hi, hne⟩ := h x (by simp)
    unfold findItem
    rw [exportDateKey_eq_ok _ i hi, exceptBind_ok]
    rw [if_neg hne]
    exact ih (fun item hitem => h item (by simp [hitem]))

/-- `history.find` on a strictly descending history returns the
chronologically latest record bearing the requested key. -/
theorem findItem_latest (date : DateKey) :
    ∀ (hl : List RankingHistoryItem),
      hl.Pairwise (fun a b => pubMs b < pubMs a) →
      ∀ it, findItem hl date = Except.ok (some it) →
        it ∈ hl ∧ exportDateKey it.PubDate = Except.ok date ∧
          ∀ it' ∈ hl, exportDateKey it'.PubDate = Except.ok date →
            pubMs it' ≤ pubMs it := by
  intro hl
  induction hl with
  | nil =>
    intro _ it h
    exact Option.noConfusion (Except.ok.inj h)
  | cons x t ih =>
    intro hdesc it h
    rw [List.pairwise_cons] at hdesc
    unfold findItem at h
    cases hx : exportDateKey x.PubDate with
    | error e => rw [hx] at h; exact Except.noConfusion h
    | ok kx =>
      rw [hx] at h
      rw [exceptBind_ok] at h
      by_cases hk : kx = date
      · rw [if_pos hk] at h
        have h2 : Except.ok (some x) = Except.ok (some it) := h
        cases Option.some.inj (Except.ok.inj h2)
        subst hk
        refine ⟨by simp, hx, ?_⟩
        intro it' hit' _
        rcases List.mem_cons.mp hit' with rfl | hmem
        · exact le_refl _
        · exact le_of_lt (hdesc.1 it' hmem)
      · rw [if_neg hk] at h
        obtain ⟨hmem, hkey, hmax⟩ := ih hdesc.2 it h
        refine ⟨by simp [hmem], hkey, ?_⟩
        intro it' hit' hkey'
        rcases List.mem_cons.mp hit' with rfl | hmem'
        · exact absurd (Except.ok.inj (hx.symm.trans hkey')) hk
        · exact hmax it' hmem' hkey'

/-- `find?` on a strictly ascending list returns the chronologically
earliest element bearing the requested key. -/
theorem find?_first_min (k : DateKey) :
    ∀ (l : List RankingHistoryItem),
      l.Pairwise (fun a b => pubMs a < pubMs b) →
      ∀ it, l.find? (fun it => decide (chartDateKey it.PubDate = k)) = some it →
        it ∈ l ∧ chartDateKey it.PubDate = k ∧
          ∀ it' ∈ l, chartDateKey it'.PubDate = k → pubMs it ≤ pubMs it' := by
  intro l
  induction l with
  | nil => intro _ it h; exact Option.noConfusion h
  | cons x t ih =>
    intro hasc it h
    rw [List.pairwise_cons] at hasc
    by_cases hx : chartDateKey x.PubDate = k
    · rw [List.find?_cons_of_pos _ (by simp [hx])] at h
      cases Option.some.inj h
      refine ⟨by simp, hx, ?_⟩
      intro it' hit' _
      rcases List.mem_cons.mp hit' with rfl | hmem
      · exact le_refl _
      · exact le_of_lt (hasc.1 it' hmem)
    · rw [List.find?_cons_of_neg _ (by simp [hx])] at h
      obtain ⟨hmem, hkey, hmin⟩ := ih hasc.2 it h
      refine ⟨by simp [hmem], hkey, ?_⟩
      intro it' hit' hkey'
      rcases List.mem_cons.mp hit' with rfl | hmem'
      · exact absurd hkey' hx
      · exact hmin it' hmem' hkey'

/-- The chart's `rankMap` lookup is a last-match search: the first match
of the reversed history. -/
theorem jsMapGet_rankMapOf (hl : List RankingHistoryItem) (k : DateKey) :
    jsMapGet (rankMapOf hl) k =
      (hl.reverse.find? (fun it => decide (chartDateKey it.PubDate = k))).map
        (fun it => it.Rank) := by
  unfold jsMapGet rankMapOf
  rw [← List.map_reverse, List.find?_map, Option.map_map]
  rfl

/-- A history with no record keyed `k` contributes the gap marker. -/
theorem jsMapGet_rankMapOf_none (hl : List RankingHistoryItem) (k : DateKey)
    (h : ∀ item ∈ hl, chartDateKey item.PubDate ≠ k) :
    jsMapGet (rankMapOf hl) k = none := by
  rw [jsMapGet_rankMapOf]
  have : hl.reverse.find? (fun it => decide (chartDateKey it.PubDate = k)) = none := by
    rw [List.find?_eq_none]
    intro x hx
    simp [h x (List.mem_reverse.mp hx)]
  rw [this]
  rfl

/-! ## Decidable record-validity predicates (for concrete instantiation) -/

/-- The record's timestamp parses to a valid instant. -/
def parsesValid (pd : Option Instant) : Prop :=
  match pd with
  | none => False
  | some i => i.Valid

instance (pd : Option Instant) : Decidable (parsesValid pd) := by
  cases pd <;> (unfold parsesValid; infer_instance)

theorem parsesValid_iff (pd : Option Instant) :
    parsesValid pd ↔ ∃ i, pd = some i ∧ i.Valid := by
  cases pd <;> simp [parsesValid]

/-- The record's timestamp parses and lies on the calendar day `(y, m, d)`. -/
def onDay (pd : Option Instant) (y m d : Int) : Prop :=
  match pd with
  | none => False
  | some i => i.year = y ∧ i.month = m ∧ i.day = d

instance (pd : Option Instant) (y m d : Int) : Decidable (onDay pd y m d) := by
  cases pd <;> (unfold onDay; infer_instance)

/-- Entries of a nodup-keyed association list are determined by their key
(JS object keys are unique). -/
theorem key_unique {β : Type} :
    ∀ {l : List (String × β)}, (l.map Prod.fst).Nodup →
      ∀ {a : String} {h1 h2 : β}, (a, h1) ∈ l → (a, h2) ∈ l → h1 = h2 := by
  intro l
  induction l with
  | nil => intro _ a h1 h2 m1 _; exact absurd m1 (by simp)
  | cons x t ih =>
    intro hnd a h1 h2 m1 m2
    rw [List.map_cons, List.nodup_cons] at hnd
    rcases List.mem_cons.mp m1 with rfl | m1t
    · rcases List.mem_cons.mp m2 with he | m2t
      · exact (congrArg Prod.snd he).symm
      · exact absurd (List.mem_map.mpr ⟨(a, h2), m2t, rfl⟩) hnd.1
    · rcases List.mem_cons.mp m2 with rfl | m2t
      · exact absurd (List.mem_map.mpr ⟨(a, h1), m1t, rfl⟩) hnd.1
      · exact ih hnd.2 m1t m2t

/-- Pointwise image of a successful `mapE`. -/
theorem mapE_ok_map {α β γ : Type} (f : α → Except String β) (g : β → γ)
    (hfun : α → γ) :
    ∀ (l : List α) (bs : List β), mapE f l = Except.ok bs →
      (∀ a ∈ l, ∀ b, f a = Except.ok b → g b = hfun a) →
      bs.map g = l.map hfun := by
  intro l
  induction l with
  | nil =>
    intro bs h _
    have h2 : Except.ok ([] : List β) = Except.ok bs := h
    cases h2; rfl
  | cons x t ih =>
    intro bs h hg
    unfold mapE at h
    cases hx : f x with
    | error e => rw [hx] at h; exact Except.noConfusion h
    | ok b0 =>
      rw [hx] at h
      cases ht : mapE f t with
      | error e => rw [ht] at h; exact Except.noConfusion h
      | ok bs0 =>
        rw [ht] at h
        have h2 : Except.ok (b0 :: bs0) = Except.ok bs := h
        cases h2
        rw [List.map_cons, List.map_cons,
          hg x (by simp) b0 hx,
          ih bs0 ht (fun a ha b hb => hg a (by simp [ha]) b hb)]

/-- A successful JSON binding carries the code of the entity it was built
for, and witnesses a found record. -/
theorem jsonBindingFor_ok_some (code : String) (history : List RankingHistoryItem)
    (date : DateKey) (b : String × CountryRankingData)
    (h : jsonBindingFor code history date = Except.ok (some b)) :
    b.1 = code ∧ ∃ it, findItem history date = Except.ok (some it) := by
  unfold jsonBindingFor at h
  cases hf : findItem history date with
  | error e => rw [hf] at h; exact Except.noConfusion h
  | ok item =>
    rw [hf] at h
    cases item with
    | none =>
      have h2 : Except.ok (α := Option (String × CountryRankingData)) none =
          Except.ok (some b) := h
      exact Option.noConfusion (Except.ok.inj h2)
    | some it =>
      have h2 : Except.ok (some (code,
          (⟨it.Rank, it.TotalPoints, (it.TeamName.head?).map (fun t => t.Description)⟩ :
            CountryRankingData))) = Except.ok (some b) := h
      cases Option.some.inj (Except.ok.inj h2)
      exact ⟨rfl, it, rfl⟩

/-! ## Claim C1 -/

/-- Fixture for C1: ARG's retrieval rejects; BRA's succeeds with one record. -/
def providerC1 : String → FetchOutcome := fun c =>
  if c = "ARG" then FetchOutcome.rejected
  else FetchOutcome.resolved (some [⟨"BRA", [⟨"Brazil"⟩], 1, 200, some ⟨2024, 6, 1, 0⟩⟩])

/-- C1: the claim requires that when one entity's retrieval rejects and
another succeeds with a non-empty record list, the successful entity's
snapshot and history are still returned.  Evaluating `fetchRankings` at
such an input: the joint `Promise.all` rejects, the `catch` only logs,
and both outputs are empty — even though BRA's payload alone would have
produced a snapshot (third conjunct). -/
theorem C1_one_rejection_empties_batch :
    fetchRankings ["ARG", "BRA"] "1" providerC1 = ([], []) ∧
    providerC1 "BRA" =
      FetchOutcome.resolved (some [⟨"BRA", [⟨"Brazil"⟩], 1, 200, some ⟨2024, 6, 1, 0⟩⟩]) ∧
    (processCountry "1" "BRA"
      (some [⟨"BRA", [⟨"Brazil"⟩], 1, 200, some ⟨2024, 6, 1, 0⟩⟩])).isSome = true := by
  refine ⟨rfl, rfl, ?_⟩
  decide

/-! ## Claim C2 -/

/-- C2: the claim requires the chart and the export to use one and the
same date-key function.  At the timestamp 2024-01-15T00:00:00Z the chart
normalizer produces the locale key rendering "1/15/2024" while the
export normalizer produces the ISO key rendering "2024-01-15": two
different keys for the same timestamp, so the two functions are not the
same. -/
theorem C2_divergent_normalizers :
    chartDateKey (some ⟨2024, 1, 15, 0⟩) = DateKey.locale 1 15 2024 ∧
    exportDateKey (some ⟨2024, 1, 15, 0⟩) = Except.ok (DateKey.iso 2024 1 15) ∧
    (DateKey.locale 1 15 2024).render = "1/15/2024" ∧
    (DateKey.iso 2024 1 15).render = "2024-01-15" ∧
    decide ((DateKey.locale 1 15 2024).render = (DateKey.iso 2024 1 15).render) =
      false := by
  refine ⟨rfl, rfl, rfl, rfl, ?_⟩
  decide

/-! ## Claim C6 -/

/-- Fixture for C6: 31 selected entities (one more than the palette has). -/
def hmC6 : HistoryMap := (List.range 31).map (fun i => ("C" ++ toString i, []))

/-- C6: the claim requires the color of each series to be a deterministic
function of its selection index even beyond the 30-entry palette.  With
31 entities, two runs of the chart build that differ only in the random
palette draw produce different datasets (the 31st color differs), while
within the palette the draw is ignored. -/
theorem C6_random_color_fallback :
    decide (updateChart TimeRange.all ⟨2025, 1, 1, 0⟩ hmC6 (fun _ => 0) =
      updateChart TimeRange.all ⟨2025, 1, 1, 0⟩ hmC6 (fun _ => 1)) = false ∧
    chartColor 30 0 = "#3b82f6" ∧
    chartColor 30 1 = "#ef4444" ∧
    chartColor 29 0 = chartColor 29 1 := by
  refine ⟨?_, rfl, rfl, rfl⟩
  decide

/-! ## Claim C7 -/

/-- Fixture for C7: a history with one parseable and one unparseable
timestamp. -/
def hmC7 : HistoryMap :=
  [("GER", [⟨"GER", [⟨"Germany"⟩], 10, 1500, some ⟨2024, 3, 10, 0⟩⟩,
            ⟨"GER", [⟨"Germany"⟩], 11, 1490, none⟩])]

/-- C7: the claim requires that an unparseable timestamp neither crashes
the exports nor reaches the axis.  Evaluating the code: both exports
throw the `RangeError` from `toISOString`, and the chart axis includes
the "Invalid Date" key instead of excluding the malformed record. -/
theorem C7_unparseable_crashes_exports :
    downloadCSV hmC7 = Except.error "RangeError: Invalid time value" ∧
    downloadJSON hmC7 = Except.error "RangeError: Invalid time value" ∧
    DateKey.invalid ∈ chartLabels TimeRange.all ⟨2025, 1, 1, 0⟩ hmC7 := by
  refine ⟨rfl, rfl, ?_⟩
  decide

/-! ## Claim C3 -/

/-- Fixtures for C3: two same-day records, descending by time as
`fetchRankings` stores them; the later one has rank 3, the earlier rank 5. -/
def itLate : RankingHistoryItem :=
  ⟨"FRA", [⟨"France"⟩], 3, 1800, some ⟨2024, 6, 1, 7200000⟩⟩

def itEarly : RankingHistoryItem :=
  ⟨"FRA", [⟨"France"⟩], 5, 1700, some ⟨2024, 6, 1, 3600000⟩⟩

/-- C3 (counterexample): on a duplicated DateKey the export lookup
returns the chronologically latest record (rank 3), but the chart value
lookup returns the chronologically earliest one's rank (5): the chart
consumer does not use the latest record. -/
theorem C3_chart_uses_earliest :
    ([itLate, itEarly] : List RankingHistoryItem).Pairwise
      (fun a b => pubMs b < pubMs a) ∧
    findItem [itLate, itEarly] (DateKey.iso 2024 6 1) = Except.ok (some itLate) ∧
    itLate.Rank = 3 ∧
    chartDataPoint [itLate, itEarly] (DateKey.locale 6 1 2024) = some 5 ∧
    (3 : Int) < 5 := by
  refine ⟨?_, rfl, rfl, rfl, ?_⟩ <;> decide

/-- C3 (amended): the export lookup (`history.find` on the descending
history, used by both CSV and JSON) returns the chronologically latest
record of a duplicated DateKey; the chart lookup (`new Map`, last entry
wins) deterministically returns the chronologically earliest one. -/
theorem C3_export_latest_chart_earliest (hl : List RankingHistoryItem)
    (hdesc : hl.Pairwise (fun a b => pubMs b < pubMs a)) (k : DateKey) :
    (∀ it, findItem hl k = Except.ok (some it) →
      it ∈ hl ∧ exportDateKey it.PubDate = Except.ok k ∧
        ∀ it' ∈ hl, exportDateKey it'.PubDate = Except.ok k →
          pubMs it' ≤ pubMs it) ∧
    (∀ r, jsMapGet (rankMapOf hl) k = some r →
      ∃ it ∈ hl, chartDateKey it.PubDate = k ∧ r = it.Rank ∧
        ∀ it' ∈ hl, chartDateKey it'.PubDate = k → pubMs it ≤ pubMs it') := by
  constructor
  · exact fun it h => findItem_latest k hl hdesc it h
  · intro r h
    rw [jsMapGet_rankMapOf] at h
    obtain ⟨it, hfind, hrank⟩ := Option.map_eq_some'.mp h
    have hasc : hl.reverse.Pairwise (fun a b => pubMs a < pubMs b) :=
      List.pairwise_reverse.mpr hdesc
    obtain ⟨hmem, hkey, hmin⟩ := find?_first_min k hl.reverse hasc it hfind
    refine ⟨it, List.mem_reverse.mp hmem, hkey, hrank.symm, ?_⟩
    intro it' hit' hkey'
    exact hmin it' (List.mem_reverse.mpr hit') hkey'

/-- C3 amended, at the concrete duplicated-day history. -/
theorem C3_export_latest_chart_earliest_witness :
    ∃ it ∈ ([itLate, itEarly] : List RankingHistoryItem),
      chartDateKey it.PubDate = DateKey.locale 6 1 2024 ∧ (5 : Int) = it.Rank ∧
      ∀ it' ∈ ([itLate, itEarly] : List RankingHistoryItem),
        chartDateKey it'.PubDate = DateKey.locale 6 1 2024 → pubMs it ≤ pubMs it' :=
  (C3_export_latest_chart_earliest [itLate, itEarly] (by decide)
    (DateKey.locale 6 1 2024)).2 5 rfl

/-! ## Claim C8 -/

/-- Fixture for C8: two records on the same calendar day. -/
def histC8 : List RankingHistoryItem :=
  [⟨"USA", [⟨"United States"⟩], 5, 1600, some ⟨2024, 6, 1, 7200000⟩⟩,
   ⟨"USA", [⟨"United States"⟩], 6, 1590, some ⟨2024, 6, 1, 3600000⟩⟩]

/-- Fixture for C8: one entity with two records on the same calendar day. -/
def hmC8 : HistoryMap := [("USA", histC8)]

/-- C8 (counterexample): with two same-day records for one entity, the
aligned axis (chart and export alike) has 1 distinct DateKey while the
longest individual filtered history has length 2: the claimed lower
bound "axis length ≥ longest history length" fails. -/
theorem C8_axis_shorter_than_history :
    (filteredHistoryData TimeRange.all ⟨2025, 1, 1, 0⟩ hmC8).map
      (fun p => p.2.length) = [2] ∧
    (chartLabels TimeRange.all ⟨2025, 1, 1, 0⟩ hmC8).length = 1 ∧
    sortedDates hmC8 = Except.ok [DateKey.iso 2024 6 1] ∧
    (chartLabels TimeRange.all ⟨2025, 1, 1, 0⟩ hmC8).length < 2 := by
  refine ⟨?_, ?_, rfl, ?_⟩ <;> decide

/-! ## Claim C10 -/

/-- C10 (counterexample): `countryCode` present but empty, upstream
healthy.  The claim's "otherwise" clause requires the upstream payload;
the handler's falsy check returns 400 instead. -/
theorem C10_empty_code_rejected :
    GET ⟨some "", none, none⟩ (fun _ _ _ => UpstreamOutcome.response true "PAYLOAD") =
      ⟨400, ApiBody.errorMsg "Country code is required"⟩ ∧
    decide ((⟨400, ApiBody.errorMsg "Country code is required"⟩ : ApiResponse) =
      ⟨200, ApiBody.payload "PAYLOAD"⟩) = false := by
  refine ⟨rfl, ?_⟩
  decide

/-- C8 (amended): the aligned axis — chart and export alike — carries at
least as many distinct DateKeys as each individual filtered per-entity
history contributes distinct DateKeys (rather than raw record counts),
and at most the sum of all per-entity history lengths. -/
theorem C8_axis_length_bounds (tr : TimeRange) (now : Instant) (hm : HistoryMap) :
    (∀ code h, (code, h) ∈ filteredHistoryData tr now hm →
      (h.map (fun item => chartDateKey item.PubDate)).toFinset.card ≤
        (chartLabels tr now hm).length) ∧
    (chartLabels tr now hm).length ≤
      ((filteredHistoryData tr now hm).map (fun p => p.2.length)).sum ∧
    ∀ ds, sortedDates hm = Except.ok ds →
      (∀ code hl, (code, hl) ∈ hm → (∀ item ∈ hl, item.PubDate.isSome = true) →
        (hl.map (fun item => exportDateKeyD item.PubDate)).toFinset.card ≤
          ds.length) ∧
      ds.length ≤ (hm.map (fun p => p.2.length)).sum := by
  refine ⟨?_, chartLabels_length_le tr now hm, ?_⟩
  · intro code h hmem
    exact chartLabels_length_ge tr now hm code h hmem
  · intro ds hds
    refine ⟨?_, sortedDates_length_le hm ds hds⟩
    intro code hl hmem hparse
    apply sortedDates_length_ge hm ds hds code hl hmem
    intro item hitem
    exact Option.isSome_iff_exists.mp (hparse item hitem)

/-- C8 amended, at the concrete duplicated-day history. -/
theorem C8_axis_length_bounds_witness :
    (histC8.map (fun item => chartDateKey item.PubDate)).toFinset.card ≤
      (chartLabels TimeRange.all ⟨2025, 1, 1, 0⟩ hmC8).length :=
  (C8_axis_length_bounds TimeRange.all ⟨2025, 1, 1, 0⟩ hmC8).1 "USA" histC8
    (by decide)

/-! ## Claim C4 -/

/-- C4 (confirmed): for a history map whose records all carry valid
parseable timestamps, the chart label sequence is strictly increasing by
calendar day; the export date sequence is strictly decreasing; and the
date sequence of the CSV rows and of the JSON entries is exactly that
export date sequence. -/
theorem C4_axis_ordering (tr : TimeRange) (now : Instant) (hm : HistoryMap)
    (hvalid : ∀ p ∈ hm, ∀ item ∈ p.2, parsesValid item.PubDate) :
    (chartLabels tr now hm).Pairwise (fun a b => a.dayNum < b.dayNum) ∧
    (∀ ds, sortedDates hm = Except.ok ds →
      ds.Pairwise (fun a b => b.dayNum < a.dayNum)) ∧
    (∀ ds rows, sortedDates hm = Except.ok ds →
      mapE (csvRow hm) ds = Except.ok rows →
      rows.map (fun r => r.headD "") = ds.map DateKey.render) ∧
    (∀ ds entries, sortedDates hm = Except.ok ds →
      mapE (jsonEntry hm) ds = Except.ok entries →
      entries.map TimeSeriesEntry.date = ds) := by
  have hv : ∀ p ∈ hm, ∀ item ∈ p.2, ∃ i, item.PubDate = some i ∧ i.Valid :=
    fun p hp item hi => (parsesValid_iff _).mp (hvalid p hp item hi)
  refine ⟨chartLabels_strict tr now hm hv,
    fun ds h => sortedDates_strict hm ds h hv, ?_, ?_⟩
  · intro ds rows _ hrows
    apply mapE_ok_map (csvRow hm) (fun r => r.headD "") DateKey.render ds rows hrows
    intro date _ row hrow
    unfold csvRow at hrow
    cases hc : mapE (fun p => csvCellsFor p.2 date) hm with
    | error e => rw [hc] at hrow; exact Except.noConfusion hrow
    | ok cellss =>
      rw [hc] at hrow
      have h2 : Except.ok (date.render :: cellss.flatten) = Except.ok row := hrow
      cases h2
      rfl
  · intro ds entries _ hentries
    have h := mapE_ok_map (jsonEntry hm) TimeSeriesEntry.date id ds entries hentries ?_
    · simpa using h
    · intro date _ entry hentry
      unfold jsonEntry at hentry
      cases hc : mapE (fun p => jsonBindingFor p.1 p.2 date) hm with
      | error e => rw [hc] at hentry; exact Except.noConfusion hentry
      | ok bs =>
        rw [hc] at hentry
        have h2 : Except.ok (⟨date, bs.filterMap id⟩ : TimeSeriesEntry) =
            Except.ok entry := hentry
        cases h2
        rfl

/-- Fixture for C4 and C5: two entities, two days; BRA has no record on
2024-01-01 while USA does. -/
def usaHistC5 : List RankingHistoryItem :=
  [⟨"USA", [⟨"United States"⟩], 5, 1600, some ⟨2024, 1, 1, 0⟩⟩,
   ⟨"USA", [⟨"United States"⟩], 3, 1620, some ⟨2024, 6, 1, 0⟩⟩]

def braHistC5 : List RankingHistoryItem :=
  [⟨"BRA", [⟨"Brazil"⟩], 1, 1830, some ⟨2024, 6, 1, 0⟩⟩]

def hmC5 : HistoryMap := [("USA", usaHistC5), ("BRA", braHistC5)]

/-- C4, at the concrete two-entity two-day history map. -/
theorem C4_axis_ordering_witness :
    (chartLabels TimeRange.all ⟨2025, 1, 1, 0⟩ hmC5).Pairwise
      (fun a b => a.dayNum < b.dayNum) ∧
    ([DateKey.iso 2024 6 1, DateKey.iso 2024 1 1] : List DateKey).Pairwise
      (fun a b => b.dayNum < a.dayNum) :=
  ⟨(C4_axis_ordering TimeRange.all ⟨2025, 1, 1, 0⟩ hmC5 (by decide)).1,
   (C4_axis_ordering TimeRange.all ⟨2025, 1, 1, 0⟩ hmC5 (by decide)).2.1
     [DateKey.iso 2024 6 1, DateKey.iso 2024 1 1] rfl⟩

/-! ## Claim C5 -/

/-- C5 (confirmed): if entity `A` has no record on the calendar day
`(y, m, d)` while entity `B` does, then: A's chart series value at that
day's label is the explicit gap marker `none`; the day is on both axes;
A's two CSV cells in that row are empty strings (not "0"); and the JSON
entry for that date has no field keyed `A` at all. -/
theorem C5_gap_handling (tr : TimeRange) (now : Instant) (hm : HistoryMap)
    (A B : String) (hA hB : List RankingHistoryItem)
    (itemB : RankingHistoryItem) (y m d : Int)
    (hmemA : (A, hA) ∈ hm) (hmemB : (B, hB) ∈ hm)
    (hnd : (hm.map Prod.fst).Nodup)
    (hparse : ∀ p ∈ hm, ∀ item ∈ p.2, item.PubDate.isSome = true)
    (hnoA : ∀ item ∈ hA, ¬ onDay item.PubDate y m d)
    (hBmem : itemB ∈ hB) (hBday : onDay itemB.PubDate y m d)
    (hBkeep : keepItem tr now itemB = true) :
    chartDataPoint (hA.filter (keepItem tr now)) (DateKey.locale m d y) = none ∧
    DateKey.locale m d y ∈ chartLabels tr now hm ∧
    csvCellsFor hA (DateKey.iso y m d) = Except.ok ["", ""] ∧
    (∀ ds, sortedDates hm = Except.ok ds → DateKey.iso y m d ∈ ds) ∧
    (∀ entry, jsonEntry hm (DateKey.iso y m d) = Except.ok entry →
      ∀ b ∈ entry.fields, b.1 ≠ A) := by
  obtain ⟨iB, hiB⟩ :=
    Option.isSome_iff_exists.mp (hparse (B, hB) hmemB itemB hBmem)
  rw [hiB] at hBday
  have hBd : iB.year = y ∧ iB.month = m ∧ iB.day = d := hBday
  have hfind : findItem hA (DateKey.iso y m d) = Except.ok none := by
    apply findItem_eq_none _ hA
    intro item hitem
    obtain ⟨i, hi⟩ :=
      Option.isSome_iff_exists.mp (hparse (A, hA) hmemA item hitem)
    refine ⟨i, hi, ?_⟩
    rw [hi]
    intro heq
    have hcomp : i.year = y ∧ i.month = m ∧ i.day = d := by
      have := DateKey.iso.inj heq
      exact ⟨this.1, this.2.1, this.2.2⟩
    apply hnoA item hitem
    rw [hi]
    exact hcomp
  refine ⟨?_, ?_, ?_, ?_, ?_⟩
  · have hnone : jsMapGet (rankMapOf (hA.filter (keepItem tr now)))
        (DateKey.locale m d y) = none := by
      apply jsMapGet_rankMapOf_none
      intro item hitem
      have hinA : item ∈ hA := (List.mem_filter.mp hitem).1
      cases hip : item.PubDate with
      | none => simp [chartDateKey]
      | some i =>
        simp only [chartDateKey]
        intro heq
        have hinj := DateKey.locale.inj heq
        apply hnoA item hinA
        rw [hip]
        exact ⟨hinj.2.2, hinj.1, hinj.2.1⟩
    unfold chartDataPoint
    rw [hnone]
  · apply (List.mem_insertionSort ChartKeyLe).mpr
    apply (mem_chartAllDates_iff _ _).mpr
    refine ⟨(B, hB.filter (keepItem tr now)), ?_, itemB, ?_, ?_⟩
    · unfold filteredHistoryData
      exact List.mem_map.mpr ⟨(B, hB), hmemB, rfl⟩
    · exact List.mem_filter.mpr ⟨hBmem, hBkeep⟩
    · rw [hiB]
      simp only [chartDateKey]
      rw [hBd.1, hBd.2.1, hBd.2.2]
  · unfold csvCellsFor
    rw [hfind, exceptBind_ok]
    rfl
  · intro ds hds
    unfold sortedDates at hds
    cases hks : exportAllDates hm with
    | error e => rw [hks] at hds; exact Except.noConfusion hds
    | ok ks =>
      rw [hks] at hds
      have h2 : Except.ok (List.insertionSort ExportKeyLe ks) = Except.ok ds := hds
      cases h2
      apply (List.mem_insertionSort ExportKeyLe).mpr
      apply (mem_exportAllDates_iff hm ks hks _).mpr
      refine ⟨(B, hB), hmemB, itemB, hBmem, ?_⟩
      rw [hiB]
      simp only [exportDateKey]
      rw [hBd.1, hBd.2.1, hBd.2.2]
  · intro entry hentry b hbmem hbA
    unfold jsonEntry at hentry
    cases hc : mapE (fun p => jsonBindingFor p.1 p.2 (DateKey.iso y m d)) hm with
    | error e => rw [hc] at hentry; exact Except.noConfusion hentry
    | ok bs =>
      rw [hc] at hentry
      have h2 : Except.ok (⟨DateKey.iso y m d, bs.filterMap id⟩ : TimeSeriesEntry) =
          Except.ok entry := hentry
      cases h2
      obtain ⟨ob, hob, hid⟩ := List.mem_filterMap.mp hbmem
      have hob2 : ob = some b := hid
      subst hob2
      obtain ⟨p, hp, hbind⟩ := (mapE_ok_mem_iff _ hm bs hc (some b)).mp hob
      obtain ⟨pc, ph⟩ := p
      obtain ⟨hb1, it, hfound⟩ :=
        jsonBindingFor_ok_some pc ph (DateKey.iso y m d) b hbind
      have hpcA : pc = A := by rw [← hbA, hb1]
      subst hpcA
      have hpeq : ph = hA := key_unique hnd hp hmemA
      rw [hpeq] at hfound
      rw [hfind] at hfound
      exact Option.noConfusion (Except.ok.inj hfound)

/-- C5, at the spec's scenario: BRA has no record on 2024-01-01, USA does. -/
theorem C5_gap_handling_witness :
    chartDataPoint (braHistC5.filter (keepItem TimeRange.all ⟨2025, 1, 1, 0⟩))
      (DateKey.locale 1 1 2024) = none ∧
    DateKey.locale 1 1 2024 ∈ chartLabels TimeRange.all ⟨2025, 1, 1, 0⟩ hmC5 ∧
    csvCellsFor braHistC5 (DateKey.iso 2024 1 1) = Except.ok ["", ""] := by
  have h := C5_gap_handling TimeRange.all ⟨2025, 1, 1, 0⟩ hmC5 "BRA" "USA"
    braHistC5 usaHistC5 ⟨"USA", [⟨"United States"⟩], 5, 1600, some ⟨2024, 1, 1, 0⟩⟩
    2024 1 1 (by decide) (by decide) (by decide) (by decide) (by decide)
    (by decide) (by decide) (by decide)
  exact ⟨h.1, h.2.1, h.2.2.1⟩

/-! ## Claim C9 -/

/-- C9 (confirmed): the RelativeYears(n) filter keeps exactly the records
whose timestamp is at or after `now` shifted back `n` calendar years
(`setFullYear(now.getFullYear() - n)`), boundary instant included; and
the spec scenario: with now = 2025-01-01 and n = 1, a record dated
2023-01-01 is excluded and one dated 2024-06-01 is included. -/
theorem C9_relative_years_filter :
    (∀ (history : List RankingHistoryItem) (n : Int) (now : Instant)
        (r : RankingHistoryItem),
      r ∈ history.filter (keepItem (TimeRange.years n) now) ↔
        r ∈ history ∧ ∃ i, r.PubDate = some i ∧
          (now.setFullYear (now.year - n)).toMs ≤ i.toMs) ∧
    keepItem (TimeRange.years 1) ⟨2025, 1, 1, 0⟩
      ⟨"X", [], 9, 9, some ⟨2023, 1, 1, 0⟩⟩ = false ∧
    keepItem (TimeRange.years 1) ⟨2025, 1, 1, 0⟩
      ⟨"X", [], 9, 9, some ⟨2024, 6, 1, 0⟩⟩ = true := by
  refine ⟨?_, by decide, by decide⟩
  intro history n now r
  rw [List.mem_filter]
  constructor
  · rintro ⟨hmem, hkeep⟩
    refine ⟨hmem, ?_⟩
    unfold keepItem at hkeep
    cases hpd : r.PubDate with
    | none =>
      rw [hpd] at hkeep
      exact absurd hkeep (by simp)
    | some i =>
      rw [hpd] at hkeep
      have h2 : decide ((now.setFullYear (now.year - n)).toMs ≤ i.toMs) = true :=
        hkeep
      exact ⟨i, rfl, of_decide_eq_true h2⟩
  · rintro ⟨hmem, i, hpd, hle⟩
    refine ⟨hmem, ?_⟩
    unfold keepItem
    rw [hpd]
    exact decide_eq_true hle

/-- C9, at the spec scenario's concrete record list. -/
theorem C9_relative_years_filter_witness :
    (⟨"X", [], 3, 100, some ⟨2024, 6, 1, 0⟩⟩ : RankingHistoryItem) ∈
      ([⟨"X", [], 3, 100, some ⟨2024, 6, 1, 0⟩⟩,
        ⟨"Y", [], 4, 90, some ⟨2023, 1, 1, 0⟩⟩] :
        List RankingHistoryItem).filter
        (keepItem (TimeRange.years 1) ⟨2025, 1, 1, 0⟩) :=
  (C9_relative_years_filter.1 _ 1 ⟨2025, 1, 1, 0⟩ _).mpr
    ⟨by decide, ⟨2024, 6, 1, 0⟩, rfl, by decide⟩

/-! ## Claim C10, amended behavior -/

/-- C10 (amended): an absent or empty `countryCode` yields 400 with the
required error body, independently of the upstream; for a nonempty code,
gender defaults to "1" and footballType to "football" when absent or
empty; an upstream throw or non-ok response yields 500 with the required
error body; an ok response's payload is returned unchanged with 200. -/
theorem C10_get_handler (q : ApiQuery)
    (u : String → String → String → UpstreamOutcome) :
    ((q.countryCode = none ∨ q.countryCode = some "") →
      GET q u = ⟨400, ApiBody.errorMsg "Country code is required"⟩ ∧
      ∀ u', GET q u = GET q u') ∧
    (q.gender = none ∨ q.gender = some "" → orDefault q.gender "1" = "1") ∧
    (q.footballType = none ∨ q.footballType = some "" →
      orDefault q.footballType "football" = "football") ∧
    ∀ cc, q.countryCode = some cc → cc ≠ "" →
      (u (orDefault q.gender "1") cc (orDefault q.footballType "football") =
          UpstreamOutcome.throws →
        GET q u = ⟨500, ApiBody.errorMsg "Failed to fetch data"⟩) ∧
      (∀ b, u (orDefault q.gender "1") cc (orDefault q.footballType "football") =
          UpstreamOutcome.response false b →
        GET q u = ⟨500, ApiBody.errorMsg "Failed to fetch data"⟩) ∧
      (∀ b, u (orDefault q.gender "1") cc (orDefault q.footballType "football") =
          UpstreamOutcome.response true b →
        GET q u = ⟨200, ApiBody.payload b⟩) := by
  refine ⟨?_, ?_, ?_, ?_⟩
  · rintro (hcc | hcc) <;>
      exact ⟨by simp [GET, hcc], fun u' => by simp [GET, hcc]⟩
  · rintro (h | h) <;> simp [orDefault, h]
  · rintro (h | h) <;> simp [orDefault, h]
  · intro cc hcc hne
    refine ⟨fun hu => ?_, fun b hu => ?_, fun b hu => ?_⟩ <;>
      simp [GET, hcc, hne, hu]

/-- C10 amended, at a concrete healthy request. -/
theorem C10_get_handler_witness :
    GET ⟨some "BRA", none, none⟩
      (fun g c t => UpstreamOutcome.response true (g ++ c ++ t)) =
      ⟨200, ApiBody.payload "1BRAfootball"⟩ :=
  ((C10_get_handler ⟨some "BRA", none, none⟩
    (fun g c t => UpstreamOutcome.response true (g ++ c ++ t))).2.2.2 "BRA" rfl
    (by decide)).2.2 "1BRAfootball" rfl
